import Mathlib

/-!
Verification development for `mlfinlab/datastructures/imbalance.py`.

The module builds tick/volume/dollar imbalance bars from a stream of ticks
`(date_time, price, volume)`.  We embed the per-tick loop body of
`_extract_bars`, the counter restoration `_get_updated_counters`, and the
batch driver `_batch_run` as executable Lean functions over `ℚ`
(Python floats are modelled as exact rationals; `np.inf` / `-np.inf`
initial extrema are modelled by `Option ℚ` with `none` playing the role of
the not-yet-set infinity, which is observationally equivalent because the
code only compares the extrema against finite prices and every such
comparison against an infinity succeeds).

The per-tick cache list of `CacheData` named tuples is embedded with value
semantics.  In the Python code all snapshots alias one mutable
`imbalance_array` list; the code only ever reads `imbalance_array` from the
*last* snapshot (in `_get_updated_counters`), where the aliased list and the
value stored at snapshot time coincide, so the value-semantics embedding is
observationally faithful.

The local variable `prev_tick_rule` is initialised to `0` only when
`cache is None` and is overwritten from `cache[-1].tick_rule` on every tick
at which the cache is non-empty.  On every execution reachable from the
driver with non-empty batches the cache is empty only before the very first
tick ever processed (a bar emission leaves one snapshot in the cache), so
the tick rule is a function of the current cache: `0` when the cache is
empty, otherwise determined by the last snapshot.  `tickRuleOf` embeds
exactly that.
-/

namespace ImbalanceBars

/-- One input row `(date_time, price, volume)` of the tick table. -/
structure TickData where
  date_time : ℕ
  price : ℚ
  volume : ℚ
deriving DecidableEq, Repr

/-- The `CacheData` named tuple of `_extract_bars` (fields in source order). -/
structure CacheData where
  date_time : ℕ
  price : ℚ
  high : Option ℚ
  low : Option ℚ
  tick_rule : ℚ
  cum_volume : ℚ
  cum_dollar_value : ℚ
  cum_ticks : ℕ
  cum_theta : ℚ
  exp_num_ticks : ℚ
  imbalance_array : List ℚ
deriving DecidableEq, Repr

/-- One output bar row
`[date_time, open, high, low, close, cum_vol, cum_dollar, cum_ticks]`. -/
structure Bar where
  date_time : ℕ
  open_price : ℚ
  high_price : ℚ
  low_price : ℚ
  close_price : ℚ
  cum_volume : ℚ
  cum_dollar_value : ℚ
  cum_ticks : ℕ
deriving DecidableEq, Repr

/-- The tuple of running counters returned by `_get_updated_counters`
(fields in source return order). -/
structure Counters where
  cum_ticks : ℕ
  cum_dollar_value : ℚ
  cum_volume : ℚ
  cum_theta : ℚ
  high_price : Option ℚ
  low_price : Option ℚ
  exp_num_ticks : ℚ
  imbalance_array : List ℚ
deriving DecidableEq, Repr

/-- The metric argument of `_extract_bars` (one of the three string values
compared against in the loop body). -/
inductive Metric where
  | tick_imbalance
  | dollar_imbalance
  | volume_imbalance
deriving DecidableEq, Repr

/-- The loop-carried state of `_extract_bars` apart from `list_bars`:
the cache of per-tick snapshots, the running counters, and the
`num_ticks_bar` history of completed bar lengths. -/
structure BarState where
  cache : List CacheData
  counters : Counters
  num_ticks_bar : List ℕ
deriving DecidableEq, Repr

/-- `np.sign` on a rational. -/
def ratSign (q : ℚ) : ℚ :=
  if 0 < q then 1 else if q < 0 then -1 else 0

/-- Python `int()` applied to a float: truncation toward zero. -/
def pyInt (q : ℚ) : ℤ :=
  if 0 ≤ q then ⌊q⌋ else -⌊-q⌋

/-- Python slice `xs[-w:]` for an integer `w` (note `xs[-0:]` is the whole
list, and for `w < 0` the slice `xs[(-w):]` drops `-w` elements). -/
def sliceFromNeg {α : Type} (xs : List α) (w : ℤ) : List α :=
  if w ≤ 0 then xs.drop (-w).toNat else xs.drop (xs.length - w.toNat)

/-- Modelled from the spec: the helper `ewma` imported from `.ewma` is not
part of the sources; §6 of the spec defines it as standard exponential
smoothing with decay `α = 2/(window+1)`, output the same length as the
input, and the first output value seeded from the first input value. -/
def ewma (xs : List ℚ) (window : ℤ) : List ℚ :=
  match xs with
  | [] => []
  | x :: rest =>
      List.scanl
        (fun s y => (2 / ((window : ℚ) + 1)) * y +
          (1 - 2 / ((window : ℚ) + 1)) * s) x rest

/-- The tick-rule classifier (lines 133-140 of the source): with an empty
cache the `IndexError` branch leaves `tick_diff = 0` and the initial
`prev_tick_rule = 0`; otherwise `np.sign(price - cache[-1].price)` with
carry-forward of `cache[-1].tick_rule` on a zero difference. -/
def tickRuleOf (cache : List CacheData) (price : ℚ) : ℚ :=
  match cache.getLast? with
  | none => 0
  | some last =>
      let tick_diff := price - last.price
      if tick_diff = 0 then last.tick_rule else ratSign tick_diff

/-- The per-metric imbalance contribution (lines 142-147). -/
def imbalanceOf (m : Metric) (tick_rule price volume : ℚ) : ℚ :=
  match m with
  | .tick_imbalance => tick_rule
  | .dollar_imbalance => tick_rule * volume * price
  | .volume_imbalance => tick_rule * volume

/-- The expected-imbalance-per-tick estimate (lines 152-160): `none` models
the `np.nan` placeholder while the imbalance array is still shorter than
`exp_num_ticks`; otherwise the last value of the EWMA over the Python slice
`imbalance_array[-int(exp_num_ticks * num_prev_bars):]` with that same
integer as the EWMA window.  The `.getLastD 0` default totalizes the one
error path of the source: when the truncated window is `≤ -1` the slice can
be empty and `ewma(...)[-1]` would raise an `IndexError`; with
`exp_num_ticks ≥ 0` (always the case when the initial guess is
non-negative and the bar-length EWMA window is at least 1) the window is
never negative, the slice is non-empty, and the default is never taken.
No theorem below asserts anything about the negative-window region. -/
def expTickImbOf (imbalance_array : List ℚ) (exp_num_ticks : ℚ)
    (num_prev_bars : ℕ) : Option ℚ :=
  if (imbalance_array.length : ℚ) < exp_num_ticks then none
  else
    let ewma_window := pyInt (exp_num_ticks * (num_prev_bars : ℚ))
    some ((ewma (sliceFromNeg imbalance_array ewma_window)
      ewma_window).getLastD 0)

/-- The body of the `for row in data.values` loop of `_extract_bars`
(lines 121-231), as a function from the loop-carried state and one tick to
the successor state and the (zero or one) bars appended to `list_bars`. -/
def extractTick (m : Metric) (num_prev_bars num_ticks_ewma_window : ℕ)
    (st : BarState) (t : TickData) : BarState × List Bar :=
  let c := st.counters
  let cum_ticks := c.cum_ticks + 1
  let dollar_value := t.price * t.volume
  let cum_dollar_value := c.cum_dollar_value + dollar_value
  let cum_volume := c.cum_volume + t.volume
  let tick_rule := tickRuleOf st.cache t.price
  let imbalance := imbalanceOf m tick_rule t.price t.volume
  let imbalance_array := c.imbalance_array ++ [imbalance]
  let cum_theta := c.cum_theta + imbalance
  let exp_tick_imb := expTickImbOf imbalance_array c.exp_num_ticks num_prev_bars
  let high_price : Option ℚ :=
    match c.high_price with
    | none => some t.price
    | some h => if t.price > h then some t.price else some h
  let low_price : Option ℚ :=
    match c.low_price with
    | none => some t.price
    | some l => if t.price ≤ l then some t.price else some l
  let cache1 := st.cache ++
    [⟨t.date_time, t.price, high_price, low_price, tick_rule, cum_volume,
      cum_dollar_value, cum_ticks, cum_theta, c.exp_num_ticks,
      imbalance_array⟩]
  let emit : Bool :=
    match exp_tick_imb with
    | none => false
    | some e => decide (|cum_theta| > c.exp_num_ticks * |e|)
  if emit then
    let open_price :=
      match cache1.head? with
      | some cd => cd.price
      | none => t.price
    let low_final :=
      match low_price with
      | some l => min l open_price
      | none => open_price
    let high_final :=
      match high_price with
      | some h => h
      | none => t.price
    let num_ticks_bar := st.num_ticks_bar ++ [cum_ticks]
    let expected_num_ticks_bar :=
      (ewma ((sliceFromNeg num_ticks_bar (num_ticks_ewma_window : ℤ)).map
        (fun n => (n : ℚ))) (num_ticks_ewma_window : ℤ)).getLastD 0
    let bar : Bar :=
      ⟨t.date_time, open_price, high_final, low_final, t.price, cum_volume,
        cum_dollar_value, cum_ticks⟩
    (⟨[⟨t.date_time, t.price, none, none, tick_rule, 0, 0, 0, 0,
        expected_num_ticks_bar, imbalance_array⟩],
      ⟨0, 0, 0, 0, none, none, expected_num_ticks_bar, imbalance_array⟩,
      num_ticks_bar⟩, [bar])
  else
    (⟨cache1 ++
      [⟨t.date_time, t.price, high_price, low_price, tick_rule, cum_volume,
        cum_dollar_value, cum_ticks, cum_theta, c.exp_num_ticks,
        imbalance_array⟩],
      ⟨cum_ticks, cum_dollar_value, cum_volume, cum_theta, high_price,
        low_price, c.exp_num_ticks, imbalance_array⟩,
      st.num_ticks_bar⟩, [])

/-- The full `for` loop of `_extract_bars`, accumulating emitted bars in
arrival order. -/
def extractLoop (m : Metric) (num_prev_bars num_ticks_ewma_window : ℕ) :
    List TickData → BarState → BarState × List Bar
  | [], st => (st, [])
  | t :: ts, st =>
      let r1 := extractTick m num_prev_bars num_ticks_ewma_window st t
      let r2 := extractLoop m num_prev_bars num_ticks_ewma_window ts r1.1
      (r2.1, r1.2 ++ r2.2)

/-- Counter restoration from the last cache snapshot
(lines 34-44 of the source; the `int` / `np.float64` coercions there are
numeric identities). -/
def restoreCounters (last : CacheData) : Counters :=
  ⟨last.cum_ticks, last.cum_dollar_value, last.cum_volume, last.cum_theta,
   last.high, last.low, last.exp_num_ticks, last.imbalance_array⟩

/-- `_get_updated_counters(cache, flag, exp_num_ticks_init)`: restore from
the last cache entry when the flag is set and the cache is non-empty,
otherwise reset (zero sums, unset extrema, initial expected ticks, empty
imbalance array). -/
def _get_updated_counters (cache : List CacheData) (flag : Bool)
    (exp_num_ticks_init : ℚ) : Counters :=
  match flag, cache.getLast? with
  | true, some last => restoreCounters last
  | true, none => ⟨0, 0, 0, 0, none, none, exp_num_ticks_init, []⟩
  | false, _ => ⟨0, 0, 0, 0, none, none, exp_num_ticks_init, []⟩

/-- `_extract_bars`: when `cache is None` the cache and `num_ticks_bar`
start empty; the counters come from `_get_updated_counters`; the loop runs
over the batch; the result is `(list_bars, cache, num_ticks_bar)`. -/
def _extract_bars (data : List TickData) (m : Metric)
    (exp_num_ticks_init : ℚ) (num_prev_bars num_ticks_ewma_window : ℕ)
    (cache : Option (List CacheData)) (flag : Bool)
    (num_ticks_bar : Option (List ℕ)) :
    List Bar × List CacheData × List ℕ :=
  let cache0 := cache.getD []
  let ntb0 := if cache.isSome then num_ticks_bar.getD [] else []
  let counters0 := _get_updated_counters cache0 flag exp_num_ticks_init
  let r := extractLoop m num_prev_bars num_ticks_ewma_window data
    ⟨cache0, counters0, ntb0⟩
  (r.2, r.1.cache, r.1.num_ticks_bar)

/-- The driver accumulator of `_batch_run`: collected bars, the carried
cache and `num_ticks_bar` (absent before the first call), and the
use-the-cache flag. -/
structure DriverAcc where
  final_bars : List Bar
  cache : Option (List CacheData)
  num_ticks_bar : Option (List ℕ)
  flag : Bool
deriving DecidableEq, Repr

/-- One iteration of the batch loop in `_batch_run` (lines 289-308):
call `_extract_bars` with the carried cache, `num_ticks_bar` and flag,
concatenate the returned bars, carry the returned cache and history, and
set the flag. -/
def batchStep (m : Metric) (exp_num_ticks_init : ℚ)
    (num_prev_bars num_ticks_ewma_window : ℕ) (acc : DriverAcc)
    (batch : List TickData) : DriverAcc :=
  let r := _extract_bars batch m exp_num_ticks_init num_prev_bars
    num_ticks_ewma_window acc.cache acc.flag acc.num_ticks_bar
  ⟨acc.final_bars ++ r.1, some r.2.1, some r.2.2, true⟩

/-- The batch loop of `_batch_run` over an already-split sequence of
batches (the `groupby` chunking itself is I/O plumbing; a run with
`batch_size = b` corresponds to the partition of the stream into
consecutive non-empty chunks of size `b`). -/
def batchLoop (batches : List (List TickData)) (m : Metric)
    (exp_num_ticks_init : ℚ) (num_prev_bars num_ticks_ewma_window : ℕ) :
    DriverAcc :=
  batches.foldl (batchStep m exp_num_ticks_init num_prev_bars
    num_ticks_ewma_window) ⟨[], none, none, false⟩

/-- `_batch_run`: `_assert_dataframe(df.iloc[0:1])` inspects row 0 of the
input table, which raises on an empty table (modelled by `none`); the shape
and float checks are identities in this embedding because a `TickData` row
has exactly the three numeric columns.  Otherwise the batch loop runs and
the collected bars are returned. -/
def _batch_run (batches : List (List TickData)) (m : Metric)
    (exp_num_ticks_init : ℚ) (num_prev_bars num_ticks_ewma_window : ℕ) :
    Option (List Bar) :=
  if (batches.flatten).isEmpty then none
  else some (batchLoop batches m exp_num_ticks_init num_prev_bars
    num_ticks_ewma_window).final_bars

/-- `get_tick_imbalance_bars`: thin wrapper fixing the metric. -/
def get_tick_imbalance_bars (batches : List (List TickData))
    (exp_num_ticks_init : ℚ) (num_prev_bars num_ticks_ewma_window : ℕ) :
    Option (List Bar) :=
  _batch_run batches .tick_imbalance exp_num_ticks_init num_prev_bars
    num_ticks_ewma_window

/-- `get_volume_imbalance_bars`: thin wrapper fixing the metric. -/
def get_volume_imbalance_bars (batches : List (List TickData))
    (exp_num_ticks_init : ℚ) (num_prev_bars num_ticks_ewma_window : ℕ) :
    Option (List Bar) :=
  _batch_run batches .volume_imbalance exp_num_ticks_init num_prev_bars
    num_ticks_ewma_window

/-- `get_dollar_imbalance_bars`: thin wrapper fixing the metric. -/
def get_dollar_imbalance_bars (batches : List (List TickData))
    (exp_num_ticks_init : ℚ) (num_prev_bars num_ticks_ewma_window : ℕ) :
    Option (List Bar) :=
  _batch_run batches .dollar_imbalance exp_num_ticks_init num_prev_bars
    num_ticks_ewma_window

/-- The spec's wording of the expected-imbalance estimate (§4.2 step 5)
taken literally: EWMA over the last `round(exp_num_ticks * num_prev_bars)`
entries of the imbalance history, with that same rounded span as the decay
window. -/
def expTickImbRound (imbalance_array : List ℚ) (exp_num_ticks : ℚ)
    (num_prev_bars : ℕ) : Option ℚ :=
  if (imbalance_array.length : ℚ) < exp_num_ticks then none
  else
    let w := round (exp_num_ticks * (num_prev_bars : ℚ))
    some ((ewma (imbalance_array.drop (imbalance_array.length - w.toNat))
      w).getLastD 0)

/-- The spec's wording of the expected-imbalance estimate but with the
source's `int()` truncation in place of rounding: EWMA over the last
`int(exp_num_ticks * num_prev_bars)` entries of the imbalance history with
that same truncated span as the decay window. -/
def expTickImbTrunc (imbalance_array : List ℚ) (exp_num_ticks : ℚ)
    (num_prev_bars : ℕ) : Option ℚ :=
  if (imbalance_array.length : ℚ) < exp_num_ticks then none
  else
    let w := pyInt (exp_num_ticks * (num_prev_bars : ℚ))
    some ((ewma (imbalance_array.drop (imbalance_array.length - w.toNat))
      w).getLastD 0)

/-- Concrete test ticks. -/
def tA : TickData := ⟨1, 100, 1⟩

def tB : TickData := ⟨2, 101, 1⟩

def tC : TickData := ⟨3, 102, 1⟩

def tD : TickData := ⟨4, 90, 1⟩

/-- A four-tick stream whose single-run extraction with
`exp_num_ticks_init = 1`, `num_prev_bars = 1`, `num_ticks_ewma_window = 1`
emits two bars, the second on a falling price. -/
def data4 : List TickData := [tA, tB, tC, tD]

/-- The first bar emitted by the single run over `data4`. -/
def barX : Bar := ⟨3, 100, 102, 100, 102, 3, 303, 3⟩

/-- The second bar emitted by the single run over `data4` (its recorded
high `90` lies below its open `102`). -/
def barY : Bar := ⟨4, 102, 90, 90, 90, 1, 90, 1⟩

/-- The loop state is coherent when the last cache snapshot records exactly
the live counters, so that `_get_updated_counters` restores them verbatim.
Every state produced by at least one loop iteration is coherent, because
the snapshot appended at the end of the loop body copies the (possibly
just-reset) counters. -/
def Coherent (st : BarState) : Prop :=
  (st.cache.getLast?).map restoreCounters = some st.counters

/-- Invariant tying the emitted bars to the loop state: the bars chain
(each open equals the previous close) and, when at least one bar has been
emitted, the head of the cache is the snapshot of the last emitting tick,
whose price is that bar's close. -/
def OpenCloseInv (st : BarState) (bars : List Bar) : Prop :=
  List.Chain' (fun a b => b.open_price = a.close_price) bars ∧
  ∀ b, bars.getLast? = some b →
    (st.cache.head?.map CacheData.price) = some b.close_price

/- The kernel must evaluate concrete runs of the embedding, so the rational
arithmetic primitives are made unfoldable for the rest of the file. -/
set_option allowUnsafeReducibility true

attribute [local semireducible] Rat.add Rat.mul Rat.sub Rat.div Rat.neg Rat.inv

/-! ### Coherence of the carried cache

The snapshot appended at the bottom of the loop body (the one surviving a
bar emission) records exactly the live counters, so restoring from the last
snapshot is the identity on reachable states. -/

theorem extractTick_coherent (m : Metric) (npb ntw : ℕ) (st : BarState)
    (t : TickData) : Coherent (extractTick m npb ntw st t).1 := by
  unfold Coherent
  simp only [extractTick]
  split
  · simp [restoreCounters]
  · simp [restoreCounters, List.getLast?_concat]

theorem extractLoop_coherent_of (m : Metric) (npb ntw : ℕ)
    (data : List TickData) (st : BarState) (h : Coherent st) :
    Coherent (extractLoop m npb ntw data st).1 := by
  induction data generalizing st with
  | nil => exact h
  | cons t ts ih =>
      simpa [extractLoop] using
        ih (extractTick m npb ntw st t).1 (extractTick_coherent m npb ntw st t)

theorem extractLoop_coherent (m : Metric) (npb ntw : ℕ)
    (data : List TickData) (st : BarState) (h : data ≠ []) :
    Coherent (extractLoop m npb ntw data st).1 := by
  cases data with
  | nil => exact absurd rfl h
  | cons t ts =>
      simpa [extractLoop] using
        extractLoop_coherent_of m npb ntw ts (extractTick m npb ntw st t).1
          (extractTick_coherent m npb ntw st t)

theorem extractLoop_append (m : Metric) (npb ntw : ℕ)
    (d1 d2 : List TickData) (st : BarState) :
    extractLoop m npb ntw (d1 ++ d2) st =
      ((extractLoop m npb ntw d2 (extractLoop m npb ntw d1 st).1).1,
        (extractLoop m npb ntw d1 st).2 ++
          (extractLoop m npb ntw d2 (extractLoop m npb ntw d1 st).1).2) := by
  induction d1 generalizing st with
  | nil => simp [extractLoop]
  | cons t ts ih =>
      simp [extractLoop, ih (extractTick m npb ntw st t).1, List.append_assoc]

/-! ### The continuation contract of `_extract_bars` -/

theorem get_updated_counters_coherent (st : BarState) (e : ℚ)
    (h : Coherent st) :
    _get_updated_counters st.cache true e = st.counters := by
  unfold Coherent at h
  unfold _get_updated_counters
  cases hc : st.cache.getLast? with
  | none => simp [hc] at h
  | some last =>
      simp [hc] at h
      simpa using h

theorem extract_bars_cont (data : List TickData) (m : Metric) (e : ℚ)
    (npb ntw : ℕ) (st : BarState) (h : Coherent st) :
    _extract_bars data m e npb ntw (some st.cache) true
      (some st.num_ticks_bar) =
      ((extractLoop m npb ntw data st).2,
        (extractLoop m npb ntw data st).1.cache,
        (extractLoop m npb ntw data st).1.num_ticks_bar) := by
  unfold _extract_bars
  simp [get_updated_counters_coherent st e h]

theorem extract_bars_nil (m : Metric) (e : ℚ) (npb ntw : ℕ)
    (c : List CacheData) (flag : Bool) (n : List ℕ) :
    _extract_bars [] m e npb ntw (some c) flag (some n) = ([], c, n) := by
  simp [_extract_bars, extractLoop]

theorem batchCont (m : Metric) (e : ℚ) (npb ntw : ℕ)
    (rest : List (List TickData)) (bars0 : List Bar) (st : BarState)
    (h : Coherent st) :
    List.foldl (batchStep m e npb ntw)
      ⟨bars0, some st.cache, some st.num_ticks_bar, true⟩ rest =
      ⟨bars0 ++ (extractLoop m npb ntw rest.flatten st).2,
        some (extractLoop m npb ntw rest.flatten st).1.cache,
        some (extractLoop m npb ntw rest.flatten st).1.num_ticks_bar,
        true⟩ := by
  induction rest generalizing bars0 st with
  | nil => simp [extractLoop]
  | cons b rest ih =>
      have hstep :
          batchStep m e npb ntw
            ⟨bars0, some st.cache, some st.num_ticks_bar, true⟩ b =
          ⟨bars0 ++ (extractLoop m npb ntw b st).2,
            some (extractLoop m npb ntw b st).1.cache,
            some (extractLoop m npb ntw b st).1.num_ticks_bar, true⟩ := by
        simp [batchStep, extract_bars_cont b m e npb ntw st h]
      rw [List.foldl_cons, hstep,
        ih (bars0 ++ (extractLoop m npb ntw b st).2)
          (extractLoop m npb ntw b st).1
          (extractLoop_coherent_of m npb ntw b st h)]
      simp [List.flatten, extractLoop_append m npb ntw b rest.flatten st,
        List.append_assoc]

theorem batchLoop_eq_single (batches : List (List TickData)) (m : Metric)
    (e : ℚ) (npb ntw : ℕ) (h1 : batches ≠ [])
    (h2 : ∀ b ∈ batches, b ≠ []) :
    batchLoop batches m e npb ntw =
      ⟨(_extract_bars batches.flatten m e npb ntw none false none).1,
        some (_extract_bars batches.flatten m e npb ntw none false none).2.1,
        some (_extract_bars batches.flatten m e npb ntw none false none).2.2,
        true⟩ := by
  cases batches with
  | nil => exact absurd rfl h1
  | cons b rest =>
      have hb : b ≠ [] := h2 b (List.mem_cons_self b rest)
      have hstep :
          batchStep m e npb ntw ⟨[], none, none, false⟩ b =
          ⟨(extractLoop m npb ntw b
              ⟨[], ⟨0, 0, 0, 0, none, none, e, []⟩, []⟩).2,
            some (extractLoop m npb ntw b
              ⟨[], ⟨0, 0, 0, 0, none, none, e, []⟩, []⟩).1.cache,
            some (extractLoop m npb ntw b
              ⟨[], ⟨0, 0, 0, 0, none, none, e, []⟩, []⟩).1.num_ticks_bar,
            true⟩ := by
        simp [batchStep, _extract_bars, _get_updated_counters]
      unfold batchLoop
      rw [List.foldl_cons, hstep,
        batchCont m e npb ntw rest _ _
          (extractLoop_coherent m npb ntw b _ hb)]
      simp [_extract_bars, _get_updated_counters, List.flatten,
        extractLoop_append m npb ntw b rest.flatten
          ⟨[], ⟨0, 0, 0, 0, none, none, e, []⟩, []⟩]

/-! ### Claim theorems -/

/-- C1.  Continuation equivalence: for every tick stream and every split of
it into non-empty contiguous batches, running `_extract_bars` batch by
batch — carrying the returned cache and `num_ticks_bar` into the next call
and setting the cache-use flag after the first call, exactly as the driver
loop of `_batch_run` does — collects the same bar sequence as a single
`_extract_bars` call on the whole stream, and ends with that run's cache
and bar-length history carried. -/
theorem continuation_equivalence (batches : List (List TickData))
    (m : Metric) (e : ℚ) (npb ntw : ℕ) (h1 : batches ≠ [])
    (h2 : ∀ b ∈ batches, b ≠ []) :
    batchLoop batches m e npb ntw =
      ⟨(_extract_bars batches.flatten m e npb ntw none false none).1,
        some (_extract_bars batches.flatten m e npb ntw none false none).2.1,
        some (_extract_bars batches.flatten m e npb ntw none false none).2.2,
        true⟩ :=
  batchLoop_eq_single batches m e npb ntw h1 h2

/-- Witness for C1: splitting the four-tick stream into two batches of two
reproduces the single-run result. -/
theorem continuation_equivalence_witness :
    batchLoop [[tA, tB], [tC, tD]] .tick_imbalance 1 1 1 =
      ⟨(_extract_bars data4 .tick_imbalance 1 1 1 none false none).1,
        some (_extract_bars data4 .tick_imbalance 1 1 1 none false none).2.1,
        some (_extract_bars data4 .tick_imbalance 1 1 1 none false none).2.2,
        true⟩ :=
  continuation_equivalence [[tA, tB], [tC, tD]] .tick_imbalance 1 1 1
    (by decide) (by decide)

/-- C5 (amended).  Whenever the imbalance history holds at least
`exp_num_ticks` entries and the window `int(exp_num_ticks * num_prev_bars)`
is at least 1, the expected imbalance per tick is the last value of an EWMA
over the last `int(exp_num_ticks * num_prev_bars)` entries of the history —
the `int()` TRUNCATION of the product, not its rounding — with that same
truncated span as the EWMA decay window. -/
theorem imbalance_window_truncation (arr : List ℚ) (exp_num_ticks : ℚ)
    (npb : ℕ) (h : 1 ≤ pyInt (exp_num_ticks * (npb : ℚ))) :
    expTickImbOf arr exp_num_ticks npb =
      expTickImbTrunc arr exp_num_ticks npb := by
  simp only [expTickImbOf, expTickImbTrunc, sliceFromNeg]
  rw [if_neg (by omega : ¬ pyInt (exp_num_ticks * (npb : ℚ)) ≤ 0)]

/-- Counterexample for C5: at history `[1, -1]` with
`exp_num_ticks = 3/2` and `num_prev_bars = 1` the history is long enough
(`2 ≥ 3/2`), yet the code computes the EWMA over the last
`int(3/2) = 1` entry (giving `-1`), not over the last `round(3/2) = 2`
entries (which would give `-1/3`). -/
theorem imbalance_window_round_cex :
    expTickImbOf [1, -1] (3 / 2) 1 = some (-1) ∧
    expTickImbRound [1, -1] (3 / 2) 1 = some (-1 / 3) ∧
    ¬ ((List.length [(1 : ℚ), -1] : ℚ) < 3 / 2) := by
  refine ⟨by decide, by decide, by decide⟩

/-- Witness for C5: concrete instance of the amended statement. -/
theorem imbalance_window_truncation_witness :
    expTickImbOf [1, -1] 1 1 = expTickImbTrunc [1, -1] 1 1 :=
  imbalance_window_truncation [1, -1] 1 1 (by decide)

/-- C6 (code bug).  Processing a single tick that emits no bar, starting
from an empty cache, leaves TWO identical snapshots in the cache, not one:
the loop body appends a snapshot both before and after the emission check
even though the second append is commented as being "after bar
generation". -/
theorem cache_snapshot_duplication :
    (_extract_bars [tA] .tick_imbalance 2 1 1 none false none).1 = [] ∧
    (_extract_bars [tA] .tick_imbalance 2 1 1 none false none).2.1.length
      = 2 ∧
    (_extract_bars [tA] .tick_imbalance 2 1 1 none false none).2.1.head? =
      (_extract_bars [tA] .tick_imbalance 2 1 1 none false
        none).2.1.getLast? := by
  refine ⟨by decide, by decide, by decide⟩

/-- C7.  The tick-rule classifier: `0` on the very first tick ever
processed (empty cache); afterwards `+1`/`-1` by the sign of the price
change, and the previous snapshot's rule carried forward on a zero change;
and the rule applied at a tick is recorded in the last snapshot of the
resulting cache (also by the post-emission snapshot), which is exactly the
predecessor consulted by the next tick, within and across bar and batch
boundaries. -/
theorem tick_rule_classifier :
    (∀ p : ℚ, tickRuleOf [] p = 0) ∧
    (∀ (cs : List CacheData) (last : CacheData) (p : ℚ),
      tickRuleOf (cs ++ [last]) p =
        if p = last.price then last.tick_rule
        else if last.price < p then 1 else -1) ∧
    (∀ (m : Metric) (npb ntw : ℕ) (st : BarState) (t : TickData),
      ((extractTick m npb ntw st t).1.cache.getLast?).map
        CacheData.tick_rule = some (tickRuleOf st.cache t.price)) := by
  refine ⟨fun p => rfl, fun cs last p => ?_, fun m npb ntw st t => ?_⟩
  · simp only [tickRuleOf, ratSign, List.getLast?_concat]
    rcases lt_trichotomy p last.price with hlt | heq | hgt
    · rw [if_neg (sub_ne_zero_of_ne (ne_of_lt hlt)),
        if_neg (by linarith : ¬ (0 : ℚ) < p - last.price),
        if_pos (by linarith : p - last.price < 0),
        if_neg (ne_of_lt hlt), if_neg (by linarith : ¬ last.price < p)]
    · rw [if_pos (by rw [heq, sub_self]), if_pos heq]
    · rw [if_neg (sub_ne_zero_of_ne (ne_of_gt hgt)),
        if_pos (by linarith : (0 : ℚ) < p - last.price),
        if_neg (ne_of_gt hgt), if_pos hgt]
  · simp only [extractTick]
    split
    · simp
    · simp [List.getLast?_concat]

/-- C8.  `_extract_bars` on an empty batch emits no bars and returns the
carried cache and bar-length history unchanged, and inserting an empty
batch between two non-empty batches of the driver loop leaves the
collected bars and the carried state exactly as when the empty batch is
omitted. -/
theorem empty_batch_noop :
    (∀ (m : Metric) (e : ℚ) (npb ntw : ℕ) (c : List CacheData)
      (flag : Bool) (n : List ℕ),
      _extract_bars [] m e npb ntw (some c) flag (some n) = ([], c, n)) ∧
    (∀ (m : Metric) (e : ℚ) (npb ntw : ℕ)
      (pre : List (List TickData)) (b1 b2 : List TickData)
      (post : List (List TickData)), b1 ≠ [] → b2 ≠ [] →
      batchLoop (pre ++ b1 :: [] :: b2 :: post) m e npb ntw =
        batchLoop (pre ++ b1 :: b2 :: post) m e npb ntw) := by
  constructor
  · exact fun m e npb ntw c flag n => extract_bars_nil m e npb ntw c flag n
  · intro m e npb ntw pre b1 b2 post _ _
    unfold batchLoop
    rw [List.foldl_append, List.foldl_append]
    rw [List.foldl_cons, List.foldl_cons, List.foldl_cons, List.foldl_cons]
    obtain ⟨bars, c, n, hb⟩ : ∃ bars c n,
        batchStep m e npb ntw
          (List.foldl (batchStep m e npb ntw) ⟨[], none, none, false⟩ pre)
          b1 = ⟨bars, some c, some n, true⟩ := ⟨_, _, _, rfl⟩
    rw [hb]
    have hempty : batchStep m e npb ntw ⟨bars, some c, some n, true⟩ [] =
        ⟨bars, some c, some n, true⟩ := by
      simp [batchStep, extract_bars_nil]
    rw [hempty, List.foldl_cons]

/-- Witness for C8: concrete instance with an empty batch between two
singleton batches. -/
theorem empty_batch_noop_witness :
    _extract_bars [] .tick_imbalance 1 1 1 (some []) true (some []) =
      ([], [], []) ∧
    batchLoop [[tA], [], [tB]] .tick_imbalance 1 1 1 =
      batchLoop [[tA], [tB]] .tick_imbalance 1 1 1 := by
  refine ⟨empty_batch_noop.1 .tick_imbalance 1 1 1 [] true [], ?_⟩
  exact empty_batch_noop.2 .tick_imbalance 1 1 1 [] [tA] [tB] []
    (by decide) (by decide)

/-- Every bar emitted by one loop iteration is built from the running
values at the emitting tick: close and date from the tick, open from the
oldest snapshot still held in the cache (the tick itself when the cache is
empty), high/low from the just-updated extrema with the low clamped to the
open, and the cumulative sums from the just-incremented counters. -/
theorem extractTick_bar_eq (m : Metric) (npb ntw : ℕ) (st : BarState)
    (t : TickData) (b : Bar) (h : b ∈ (extractTick m npb ntw st t).2) :
    b.date_time = t.date_time ∧
    b.open_price = (st.cache.head?.map CacheData.price).getD t.price ∧
    b.high_price =
      (st.counters.high_price.map
        (fun h0 => if t.price > h0 then t.price else h0)).getD t.price ∧
    b.low_price =
      min ((st.counters.low_price.map
        (fun l => if t.price ≤ l then t.price else l)).getD t.price)
        b.open_price ∧
    b.close_price = t.price ∧
    b.cum_volume = st.counters.cum_volume + t.volume ∧
    b.cum_dollar_value = st.counters.cum_dollar_value + t.price * t.volume ∧
    b.cum_ticks = st.counters.cum_ticks + 1 := by
  simp only [extractTick] at h
  split at h
  · rw [List.mem_singleton] at h
    subst h
    refine ⟨rfl, ?_, ?_, ?_, rfl, rfl, rfl, rfl⟩
    · cases st.cache <;> rfl
    · cases st.counters.high_price with
      | none => rfl
      | some h0 => by_cases hp : t.price > h0 <;> simp [hp]
    · cases st.counters.low_price with
      | none => cases st.cache <;> simp
      | some l =>
          by_cases hp : t.price ≤ l <;> cases st.cache <;> simp [hp]
  · simp at h

/-- Helper bound: the clamped low of an emitted bar is at most its open and
at most its close, and its high is at least its close. -/
theorem extractTick_bar_bounds (m : Metric) (npb ntw : ℕ) (st : BarState)
    (t : TickData) (b : Bar) (h : b ∈ (extractTick m npb ntw st t).2) :
    b.low_price ≤ min b.open_price b.close_price ∧
    b.close_price ≤ b.high_price := by
  obtain ⟨-, -, hhigh, hlow, hclose, -, -, -⟩ :=
    extractTick_bar_eq m npb ntw st t b h
  have hL : ((st.counters.low_price.map
      (fun l => if t.price ≤ l then t.price else l)).getD t.price)
      ≤ t.price := by
    cases st.counters.low_price with
    | none => exact le_rfl
    | some l =>
        by_cases hpl : t.price ≤ l
        · simp [hpl]
        · simp [hpl]
          linarith [lt_of_not_le hpl]
  constructor
  · rw [hlow, hclose]
    exact le_min (min_le_right _ _) ((min_le_left _ _).trans hL)
  · rw [hclose, hhigh]
    cases st.counters.high_price with
    | none => exact le_rfl
    | some h0 =>
        by_cases hph : t.price > h0
        · simp [hph]
        · simp [hph]
          linarith [le_of_not_lt hph]

theorem extractLoop_bar_bounds (m : Metric) (npb ntw : ℕ)
    (data : List TickData) (st : BarState) (b : Bar)
    (h : b ∈ (extractLoop m npb ntw data st).2) :
    b.low_price ≤ min b.open_price b.close_price ∧
    b.close_price ≤ b.high_price := by
  induction data generalizing st with
  | nil => simp [extractLoop] at h
  | cons t ts ih =>
      simp only [extractLoop, List.mem_append] at h
      rcases h with h | h
      · exact extractTick_bar_bounds m npb ntw st t b h
      · exact ih (extractTick m npb ntw st t).1 h

/-- C2 (amended).  Every bar emitted by `_extract_bars` (from any starting
cache and flag) satisfies `low ≤ min(open, close)` and `close ≤ high`; the
claimed stronger bound `high ≥ max(open, close)` fails because the open is
taken from the previous bar's emitting tick, whose price is no longer
reflected in the reset high-price extremum. -/
theorem bar_price_bounds (data : List TickData) (m : Metric) (e : ℚ)
    (npb ntw : ℕ) (cache : Option (List CacheData)) (flag : Bool)
    (ntb : Option (List ℕ)) (b : Bar)
    (h : b ∈ (_extract_bars data m e npb ntw cache flag ntb).1) :
    b.low_price ≤ min b.open_price b.close_price ∧
    b.close_price ≤ b.high_price := by
  simp only [_extract_bars] at h
  exact extractLoop_bar_bounds m npb ntw data _ b h

/-- Counterexample for C2: the second bar of the `data4` single run has
`high = 90 < 102 = open`, violating `high ≥ max(open, close)`. -/
theorem bar_price_bounds_cex :
    (_extract_bars data4 .tick_imbalance 1 1 1 none false none).1 =
      [barX, barY] ∧
    ¬ (max barY.open_price barY.close_price ≤ barY.high_price) := by
  refine ⟨by decide, by decide⟩

/-- Witness for C2: the amended bounds at the second `data4` bar. -/
theorem bar_price_bounds_witness :
    barY.low_price ≤ min barY.open_price barY.close_price ∧
    barY.close_price ≤ barY.high_price :=
  bar_price_bounds data4 .tick_imbalance 1 1 1 none false none barY
    (by decide)

/-- C3 (amended).  For every bar emitted at a tick: its open price is the
price of the oldest snapshot still held in the cache — i.e. the emitting
tick of the previous bar (or, for the first bar of a fresh run, the first
tick of the stream), not the first tick processed after the previous
reset — its close is the emitting tick's price, and its date, high,
cumulative volume, cumulative dollar value and tick count are the running
values at that tick (with the low additionally clamped to the open). -/
theorem bar_emission_fields (m : Metric) (npb ntw : ℕ) (st : BarState)
    (t : TickData) (b : Bar) (h : b ∈ (extractTick m npb ntw st t).2) :
    b.date_time = t.date_time ∧
    b.open_price = (st.cache.head?.map CacheData.price).getD t.price ∧
    b.high_price =
      (st.counters.high_price.map
        (fun h0 => if t.price > h0 then t.price else h0)).getD t.price ∧
    b.low_price =
      min ((st.counters.low_price.map
        (fun l => if t.price ≤ l then t.price else l)).getD t.price)
        b.open_price ∧
    b.close_price = t.price ∧
    b.cum_volume = st.counters.cum_volume + t.volume ∧
    b.cum_dollar_value = st.counters.cum_dollar_value + t.price * t.volume ∧
    b.cum_ticks = st.counters.cum_ticks + 1 :=
  extractTick_bar_eq m npb ntw st t b h

/-- Counterexample for C3: in the `data4` run the second bar spans exactly
one tick (`cum_ticks = 1`), namely `tD` — the only tick processed since
the reset — yet its open is `102` (the previous bar's close), not `tD`'s
price `90`. -/
theorem bar_open_price_cex :
    (_extract_bars data4 .tick_imbalance 1 1 1 none false none).1 =
      [barX, barY] ∧
    barY.cum_ticks = 1 ∧ barY.date_time = tD.date_time ∧
    barY.open_price ≠ tD.price := by
  refine ⟨by decide, by decide, by decide, by decide⟩

/-- Witness for C3: the field characterization instantiated at the state
reached after `[tA, tB]` and the emitting tick `tC`. -/
theorem bar_emission_fields_witness :
    barX.date_time = tC.date_time ∧
    barX.open_price =
      (((extractLoop .tick_imbalance 1 1 [tA, tB]
        ⟨[], ⟨0, 0, 0, 0, none, none, 1, []⟩, []⟩).1.cache.head?).map
          CacheData.price).getD tC.price ∧
    barX.close_price = tC.price := by
  obtain ⟨h1, h2, -, -, h5, -, -, -⟩ :=
    bar_emission_fields .tick_imbalance 1 1
      (extractLoop .tick_imbalance 1 1 [tA, tB]
        ⟨[], ⟨0, 0, 0, 0, none, none, 1, []⟩, []⟩).1 tC barX (by decide)
  exact ⟨h1, h2, h5⟩

/-- C9 (amended).  The bar-construction entry points perform no
configuration validation — no `InvalidConfiguration` error exists and no
parameter is inspected before processing: for every configuration with
`exp_num_ticks_init ≥ 0` and a positive bar-length EWMA window — a region
that still contains the degenerate `exp_num_ticks_init = 0 < 1` and
`num_prev_bars = 0` — they run to completion on any non-empty input and
return a bar table (the only pre-check, `_assert_dataframe`, inspects the
first input row).  Outside that region (`exp_num_ticks_init < 0`, or
`num_ticks_ewma_window = 0` driving `exp_num_ticks` negative mid-run) the
source can instead die with an `IndexError` on the then-empty slice of
line 158, still not an `InvalidConfiguration`; nothing is asserted there. -/
theorem no_config_validation (e : ℚ) (_he : 0 ≤ e) (npb ntw : ℕ)
    (_hntw : 1 ≤ ntw) (batches : List (List TickData))
    (h : batches.flatten ≠ []) :
    (get_tick_imbalance_bars batches e npb ntw).isSome = true ∧
    (get_volume_imbalance_bars batches e npb ntw).isSome = true ∧
    (get_dollar_imbalance_bars batches e npb ntw).isSome = true := by
  refine ⟨?_, ?_, ?_⟩ <;>
    simp [get_tick_imbalance_bars, get_volume_imbalance_bars,
      get_dollar_imbalance_bars, _batch_run, List.isEmpty_iff, h]

/-- Counterexample for C9: with the degenerate configuration
`exp_num_ticks_init = 0 < 1`, the tick-imbalance entry point does not fail
before processing: it processes the ticks and emits a bar. -/
theorem no_config_validation_cex :
    get_tick_imbalance_bars [[tA, tB]] 0 1 1 =
      some [⟨2, 100, 101, 100, 101, 2, 201, 2⟩] := by
  decide

/-- Witness for C9: concrete degenerate instance
(`exp_num_ticks_init = 0 < 1`, `num_prev_bars = 0`). -/
theorem no_config_validation_witness :
    (get_tick_imbalance_bars [[tA]] 0 0 1).isSome = true ∧
    (get_volume_imbalance_bars [[tA]] 0 0 1).isSome = true ∧
    (get_dollar_imbalance_bars [[tA]] 0 0 1).isSome = true :=
  no_config_validation 0 (by decide) 0 1 (by decide) [[tA]] (by decide)

/-- C4.  A bar is emitted at a tick exactly when, after the tick's
imbalance has been appended, the expected imbalance per tick is defined
(history length at least `exp_num_ticks`, third conjunct) and the updated
`|cum_theta|` strictly exceeds `exp_num_ticks` times its absolute value;
in particular no bar is emitted while the history is shorter than
`exp_num_ticks` (second conjunct). -/
theorem emission_rule (m : Metric) (npb ntw : ℕ) (st : BarState)
    (t : TickData) :
    ((extractTick m npb ntw st t).2 ≠ [] ↔
      ∃ e, expTickImbOf
          (st.counters.imbalance_array ++
            [imbalanceOf m (tickRuleOf st.cache t.price) t.price t.volume])
          st.counters.exp_num_ticks npb = some e ∧
        |st.counters.cum_theta +
            imbalanceOf m (tickRuleOf st.cache t.price) t.price t.volume| >
          st.counters.exp_num_ticks * |e|) ∧
    (((st.counters.imbalance_array ++
        [imbalanceOf m (tickRuleOf st.cache t.price) t.price
          t.volume]).length : ℚ) < st.counters.exp_num_ticks →
      (extractTick m npb ntw st t).2 = []) ∧
    ((expTickImbOf
        (st.counters.imbalance_array ++
          [imbalanceOf m (tickRuleOf st.cache t.price) t.price t.volume])
        st.counters.exp_num_ticks npb).isSome ↔
      ¬ (((st.counters.imbalance_array ++
          [imbalanceOf m (tickRuleOf st.cache t.price) t.price
            t.volume]).length : ℚ) < st.counters.exp_num_ticks)) := by
  refine ⟨⟨?_, ?_⟩, ?_, ?_⟩
  · intro hne
    cases hE : expTickImbOf
        (st.counters.imbalance_array ++
          [imbalanceOf m (tickRuleOf st.cache t.price) t.price t.volume])
        st.counters.exp_num_ticks npb with
    | none => exact absurd (by simp [extractTick, hE]) hne
    | some e0 =>
        refine ⟨e0, rfl, ?_⟩
        by_contra hP
        exact hne (by simp [extractTick, hE, hP])
  · rintro ⟨e0, hE, hP⟩
    simp [extractTick, hE, hP]
  · intro hlen
    have hE : expTickImbOf
        (st.counters.imbalance_array ++
          [imbalanceOf m (tickRuleOf st.cache t.price) t.price t.volume])
        st.counters.exp_num_ticks npb = none := by
      unfold expTickImbOf
      rw [if_pos hlen]
    simp [extractTick, hE]
  · unfold expTickImbOf
    by_cases hlen : ((st.counters.imbalance_array ++
        [imbalanceOf m (tickRuleOf st.cache t.price) t.price
          t.volume]).length : ℚ) < st.counters.exp_num_ticks
    · simp [hlen]
    · simp [hlen]

/-- Witness for C4: a bar is emitted at `tC` after `[tA, tB]` (the
condition holds with expected imbalance `1`), and no bar is emitted at the
first tick of a fresh run with `exp_num_ticks_init = 2` (history too
short). -/
theorem emission_rule_witness :
    (extractTick .tick_imbalance 1 1
      (extractLoop .tick_imbalance 1 1 [tA, tB]
        ⟨[], ⟨0, 0, 0, 0, none, none, 1, []⟩, []⟩).1 tC).2 ≠ [] ∧
    (extractTick .tick_imbalance 1 1
      ⟨[], ⟨0, 0, 0, 0, none, none, 2, []⟩, []⟩ tA).2 = [] := by
  constructor
  · exact (emission_rule .tick_imbalance 1 1 _ tC).1.mpr
      ⟨1, by decide, by decide⟩
  · exact (emission_rule .tick_imbalance 1 1 _ tA).2.1 (by decide)

/-- One loop iteration preserves the open/close chaining invariant. -/
theorem extractTick_openCloseInv (m : Metric) (npb ntw : ℕ) (st : BarState)
    (t : TickData) (bars : List Bar) (h : OpenCloseInv st bars) :
    OpenCloseInv (extractTick m npb ntw st t).1
      (bars ++ (extractTick m npb ntw st t).2) := by
  unfold OpenCloseInv at h ⊢
  obtain ⟨hchain, hlast⟩ := h
  simp only [extractTick]
  split
  · constructor
    · rw [List.chain'_append]
      refine ⟨hchain, List.chain'_singleton _, ?_⟩
      intro x hx y hy
      rw [Option.mem_def] at hx hy
      have hx' := hlast x hx
      cases hsc : st.cache with
      | nil => rw [hsc] at hx'; simp at hx'
      | cons a l =>
          rw [hsc] at hx'
          simp only [List.head?_cons, Option.map_some] at hx'
          rw [List.head?_cons, Option.some_inj] at hy
          subst hy
          simpa [hsc] using Option.some_inj.mp hx'
    · intro b hb
      rw [List.getLast?_concat] at hb
      rw [Option.some_inj] at hb
      subst hb
      rfl
  · constructor
    · simpa using hchain
    · intro b hb
      rw [List.append_nil] at hb
      have := hlast b hb
      cases hsc : st.cache with
      | nil => rw [hsc] at this; simp at this
      | cons a l => rw [hsc] at this; simpa [hsc] using this

/-- The whole loop preserves the open/close chaining invariant. -/
theorem extractLoop_openCloseInv (m : Metric) (npb ntw : ℕ)
    (data : List TickData) :
    ∀ (st : BarState) (bars : List Bar), OpenCloseInv st bars →
      OpenCloseInv (extractLoop m npb ntw data st).1
        (bars ++ (extractLoop m npb ntw data st).2) := by
  induction data with
  | nil => intro st bars h; simpa [extractLoop] using h
  | cons t ts ih =>
      intro st bars h
      have h2 := ih (extractTick m npb ntw st t).1
        (bars ++ (extractTick m npb ntw st t).2)
        (extractTick_openCloseInv m npb ntw st t bars h)
      simpa [extractLoop, List.append_assoc] using h2

/-- C10.  In a fresh single run, and equally in a driver run over carried
batches, every emitted bar after the first opens at the close price of
the immediately preceding bar: the post-reset snapshot of the emitting
tick becomes the head of the new cache, from which the next bar's open is
read. -/
theorem open_equals_previous_close (m : Metric) (e : ℚ) (npb ntw : ℕ) :
    (∀ data, List.Chain' (fun a b => b.open_price = a.close_price)
      (_extract_bars data m e npb ntw none false none).1) ∧
    (∀ batches, batches ≠ [] → (∀ b ∈ batches, b ≠ []) →
      List.Chain' (fun a b => b.open_price = a.close_price)
        (batchLoop batches m e npb ntw).final_bars) := by
  have hsingle : ∀ data, List.Chain' (fun a b => b.open_price = a.close_price)
      (_extract_bars data m e npb ntw none false none).1 := by
    intro data
    have h0 : OpenCloseInv ⟨[], ⟨0, 0, 0, 0, none, none, e, []⟩, []⟩ [] :=
      ⟨List.chain'_nil, by simp⟩
    have hinv := extractLoop_openCloseInv m npb ntw data _ [] h0
    unfold OpenCloseInv at hinv
    simpa [_extract_bars, _get_updated_counters] using hinv.1
  refine ⟨hsingle, ?_⟩
  intro batches h1 h2
  rw [batchLoop_eq_single batches m e npb ntw h1 h2]
  exact hsingle batches.flatten

/-- Witness for C10: the chaining at the concrete four-tick stream, both
in one batch and split into two carried batches. -/
theorem open_equals_previous_close_witness :
    List.Chain' (fun a b => b.open_price = a.close_price)
      (_extract_bars data4 .tick_imbalance 1 1 1 none false none).1 ∧
    List.Chain' (fun a b => b.open_price = a.close_price)
      (batchLoop [[tA, tB], [tC, tD]] .tick_imbalance 1 1 1).final_bars :=
  ⟨(open_equals_previous_close .tick_imbalance 1 1 1).1 data4,
   (open_equals_previous_close .tick_imbalance 1 1 1).2
     [[tA, tB], [tC, tD]] (by decide) (by decide)⟩

end ImbalanceBars
